import Mathlib

/-!
Formal model of the audio transcription / translation pipeline implemented in
`src/App.tsx` of the Audio-scribe-translator repository.

The TypeScript source is shallowly embedded: pure computations become Lean
functions, the stateful handlers become explicit state-passing functions, and
the external generative-AI capabilities are abstracted as function parameters
(a response list, or a `List String → List String` translation oracle).
JavaScript numbers are modelled as `ℚ` (with explicit truncation / rounding /
wrapping where the source converts to integers), and millisecond timestamps as
`ℤ`.
-/

set_option maxRecDepth 10000

/-- JavaScript `Math.round`: round to nearest, halves toward positive infinity. -/
def jsRound (q : ℚ) : ℤ := ⌊q + 1/2⌋

/-- Truncation toward zero, as performed by JavaScript `| 0` and by stores
into integer typed arrays (ECMAScript `ToIntegerOrInfinity`). -/
def ratTrunc (q : ℚ) : ℤ := if 0 ≤ q then ⌊q⌋ else ⌈q⌉

/-- Wrap an integer into signed 32-bit range, as JavaScript `| 0` (`ToInt32`). -/
def int32wrap (n : ℤ) : ℤ := ((n + 2147483648) % 4294967296) - 2147483648

/-- Wrap an integer into signed 16-bit range, as a JavaScript `Int16Array`
element store (`ToInt16`). -/
def int16wrap (n : ℤ) : ℤ := ((n + 32768) % 65536) - 32768

/-- The `TranscriptionSegment` interface of `App.tsx`: times in milliseconds. -/
structure TranscriptionSegment where
  startTime : ℤ
  endTime : ℤ
  text : String
  deriving DecidableEq, Repr

/-- One entry of the structured JSON array returned by the transcription
capability: times in seconds (`App.tsx`, response schema of
`transcribeAudioChunk`). -/
structure RawSegment where
  startTime : ℚ
  endTime : ℚ
  text : String
  deriving DecidableEq, Repr

/-- The `AppStatus` enum (from `types.ts`, as used in `App.tsx`). -/
inductive AppStatus where
  | IDLE
  | RECORDING
  | PROCESSING
  | TRANSLATING
  | FINISHED
  | ERROR
  deriving DecidableEq, Repr

/-- The mapping step of `transcribeAudioChunk` (`App.tsx` lines 466-471):
each response entry is shifted by `timeOffsetSeconds` and converted to
milliseconds with `Math.round((· + timeOffsetSeconds) * 1000)`. -/
def transcribeChunkSegments (entries : List RawSegment) (timeOffsetSeconds : ℚ) :
    List TranscriptionSegment :=
  entries.map fun s =>
    { text := s.text
      startTime := jsRound ((s.startTime + timeOffsetSeconds) * 1000)
      endTime := jsRound ((s.endTime + timeOffsetSeconds) * 1000) }

/-- `transcribeAudioChunk` (`App.tsx` line 473): the new segments are appended
to the running segment list, `setSegments(prev => [...prev, ...newSegments])`. -/
def transcribeAudioChunk (prev : List TranscriptionSegment)
    (entries : List RawSegment) (timeOffsetSeconds : ℚ) : List TranscriptionSegment :=
  prev ++ transcribeChunkSegments entries timeOffsetSeconds

/-- Sequential chunk processing: each chunk's structured response is folded
into the running segment list in chunk order, as in `chunkAndTranscribeAudio`. -/
def runChunkSequence (chunks : List (List RawSegment × ℚ)) : List TranscriptionSegment :=
  chunks.foldl (fun segs c => transcribeAudioChunk segs c.1 c.2) []

/-- JavaScript `String.prototype.padStart(n, c)`. -/
def padStart (s : String) (n : ℕ) (c : Char) : String :=
  String.mk (List.replicate (n - s.length) c) ++ s

/-- `formatSrtTime` (`App.tsx` lines 31-39).  `new Date(0)` followed by
`setMilliseconds(ms)` makes the date value equal to `ms`, so
`getUTCHours() = (ms / 3600000) % 24`, `getUTCMinutes() = (ms / 60000) % 60`,
`getUTCSeconds() = (ms / 1000) % 60`, `getUTCMilliseconds() = ms % 1000`.
The seconds field is then `padStart(3, '0').slice(0, 2)` exactly as written. -/
def formatSrtTime (ms : ℕ) : String :=
  let hours := padStart (toString ((ms / 3600000) % 24)) 2 '0'
  let minutes := padStart (toString ((ms / 60000) % 60)) 2 '0'
  let seconds := String.mk ((padStart (toString ((ms / 1000) % 60)) 3 '0').data.take 2)
  let milliseconds := padStart (toString (ms % 1000)) 3 '0'
  hours ++ ":" ++ minutes ++ ":" ++ seconds ++ "," ++ milliseconds

/-- Modelled from the spec: `millisToTimestamp` (spec section 4.1), the intended
`HH:MM:SS,mmm` rendering — hours unbounded (no wrap at 24), every field the
plain integer-division decomposition of `ms`, seconds zero-padded to 2 digits. -/
def specFormatSrtTime (ms : ℕ) : String :=
  padStart (toString (ms / 3600000)) 2 '0' ++ ":" ++
  padStart (toString ((ms / 60000) % 60)) 2 '0' ++ ":" ++
  padStart (toString ((ms / 1000) % 60)) 2 '0' ++ "," ++
  padStart (toString (ms % 1000)) 3 '0'

/-- The per-sample conversion of `audioBufferToWav` (`App.tsx` lines 136-137):
`sample = Math.max(-1, Math.min(1, channels[i][offset]))` then
`sample = (0.5 + sample < 0 ? sample * 32768 : sample * 32767) | 0`.
Note the JavaScript parse: the condition is `(0.5 + sample) < 0`. -/
def wavSample (x : ℚ) : ℤ :=
  let sample := max (-1) (min 1 x)
  int32wrap (ratTrunc (if 1/2 + sample < 0 then sample * 32768 else sample * 32767))

/-- The per-sample conversion of the live-capture `onaudioprocess` callback
(`App.tsx` lines 375-377): `int16[i] = inputData[i] * 32768` stored into an
`Int16Array` — no clamping, wrap-around store semantics. -/
def liveConvertSample (x : ℚ) : ℤ := int16wrap (ratTrunc (x * 32768))

/-- The whole-block conversion of the `onaudioprocess` callback: every float
sample of the input block is converted by `liveConvertSample`. -/
def liveConvertBlock (inputData : List ℚ) : List ℤ := inputData.map liveConvertSample

/-! ## Chunk planner (`chunkAndTranscribeAudio`, `App.tsx` lines 476-512) -/

/-- `CHUNK_DURATION_SECONDS` (`App.tsx` line 24). -/
def CHUNK_DURATION_SECONDS : ℚ := 55

/-- `Math.ceil(totalDuration / chunkDuration)` (`App.tsx` line 478), the chunk
count, parametric in the chunk duration. -/
def numChunksFor (totalDuration chunkDuration : ℚ) : ℕ :=
  (⌈totalDuration / chunkDuration⌉).toNat

/-- The chunk plan of `chunkAndTranscribeAudio`: for `i` below the chunk count,
`offset = i * chunkDuration` and `chunkDuration_i = min(chunkDuration,
totalDuration - offset)` (`App.tsx` lines 488-489). -/
def planChunks (totalDuration chunkDuration : ℚ) : List (ℚ × ℚ) :=
  (List.range (numChunksFor totalDuration chunkDuration)).map fun (i : ℕ) =>
    ((i : ℚ) * chunkDuration, min chunkDuration (totalDuration - (i : ℚ) * chunkDuration))

/-! ## File transcription control flow (`processAndTranscribeFile`,
`chunkAndTranscribeAudio`, `App.tsx` lines 476-557).

The loop transcribes chunk `i` at offset `i * CHUNK_DURATION_SECONDS` and
appends its segments; a rejected transcription request propagates as an
exception to the `catch` block of `processAndTranscribeFile`, which (when the
run was not cancelled) sets the error message and `AppStatus.ERROR` but leaves
the accumulated `segments` state untouched.  Cancellation is not exercised
here (the flag stays `false` for the runs modelled). -/

/-- Post-state of the scribe tab after a file-transcription run. -/
structure ScribeState where
  status : AppStatus
  segments : List TranscriptionSegment
  error : Option String
  deriving DecidableEq, Repr

/-- The error message template of the `catch` block (`App.tsx` line 553). -/
def fileErrMsg (msg : String) : String :=
  "Failed to process the audio file: " ++ msg ++ ". Please check the file format or try again."

/-- The chunk loop of `chunkAndTranscribeAudio` plus the surrounding
`try`/`catch` of `processAndTranscribeFile`: chunk `i` either yields a
structured response (appended at offset `i * 55`) or throws, in which case the
catch block records the error, leaving `segments` as accumulated so far. -/
def processFileGo : List (Except String (List RawSegment)) → ℕ →
    List TranscriptionSegment → ScribeState
  | [], _, segs => ⟨AppStatus.FINISHED, segs, none⟩
  | Except.ok entries :: rest, i, segs =>
      processFileGo rest (i + 1)
        (transcribeAudioChunk segs entries ((i : ℚ) * CHUNK_DURATION_SECONDS))
  | Except.error msg :: _, _, segs => ⟨AppStatus.ERROR, segs, some (fileErrMsg msg)⟩

/-- A whole chunked file-transcription run: `resetScribeState` empties the
segment list, then the chunks are processed in order from offset 0. -/
def processFileModel (chunkResults : List (Except String (List RawSegment))) : ScribeState :=
  processFileGo chunkResults 0 []

/-- The segments accumulated from a list of successful chunk responses,
starting at chunk index `i`. -/
def chunkSegmentsFrom : ℕ → List (List RawSegment) → List TranscriptionSegment
  | _, [] => []
  | i, es :: rest =>
      transcribeChunkSegments es ((i : ℚ) * CHUNK_DURATION_SECONDS) ++
        chunkSegmentsFrom (i + 1) rest

/-! ## Live streaming mode (`handleStartRecording` message callback,
`App.tsx` lines 327-349, and `handleStopRecording`, lines 295-311).

`Date.now() - recordingStartTimeRef.current` is modelled by an `elapsed`
millisecond value carried on each event. -/

/-- JavaScript whitespace test for the characters relevant here
(`String.prototype.trim`). -/
def isWS (c : Char) : Bool := c = ' ' || c = '\t' || c = '\n' || c = '\r'

/-- `String.prototype.trim`: strip whitespace from both ends. -/
def trimChars (l : List Char) : List Char :=
  ((l.dropWhile isWS).reverse.dropWhile isWS).reverse

/-- `String.prototype.trim` on a Lean `String`. -/
def jsTrim (s : String) : String := String.mk (trimChars s.data)

/-- The `currentSegment` state: accumulated partial text plus its start time
(`null` until the first partial event of a turn). -/
structure CurrentSegment where
  text : String
  startTime : Option ℤ
  deriving DecidableEq, Repr

/-- `currentSegment`'s initial / reset value `{ text: '', startTime: null }`. -/
def initialCurrentSegment : CurrentSegment := ⟨"", none⟩

/-- The two live-session server events consumed by the `onmessage` callback. -/
inductive LiveEvent where
  | inputTranscription (text : String) (elapsed : ℤ)
  | turnComplete (elapsed : ℤ)
  deriving DecidableEq, Repr

/-- The `inputTranscription` branch of the `onmessage` callback (`App.tsx`
lines 328-337): append the partial text; if the accumulated text was empty,
stamp `startTime` with the current elapsed time, else keep it. -/
def onInputTranscription (text : String) (elapsed : ℤ) (prev : CurrentSegment) :
    CurrentSegment :=
  let isNew := prev.text = ""
  ⟨prev.text ++ text, if isNew then some elapsed else prev.startTime⟩

/-- The `turnComplete` branch of the `onmessage` callback (`App.tsx` lines
338-348): if the trimmed accumulated text is non-empty and `startTime` is set,
append one finalized segment and reset `currentSegment`. -/
def onTurnComplete (elapsed : ℤ) (segments : List TranscriptionSegment)
    (cur : CurrentSegment) : List TranscriptionSegment × CurrentSegment :=
  if jsTrim cur.text ≠ "" then
    match cur.startTime with
    | some st => (segments ++ [⟨st, elapsed, jsTrim cur.text⟩], initialCurrentSegment)
    | none => (segments, cur)
  else (segments, cur)

/-- The finalization step of `handleStopRecording` (`App.tsx` lines 299-307):
same condition and same segment construction as the `turnComplete` branch. -/
def handleStopFinalize (elapsed : ℤ) (segments : List TranscriptionSegment)
    (cur : CurrentSegment) : List TranscriptionSegment × CurrentSegment :=
  if jsTrim cur.text ≠ "" then
    match cur.startTime with
    | some st => (segments ++ [⟨st, elapsed, jsTrim cur.text⟩], initialCurrentSegment)
    | none => (segments, cur)
  else (segments, cur)

/-- One step of the live session: dispatch an event to the callback model. -/
def liveStep (s : List TranscriptionSegment × CurrentSegment) :
    LiveEvent → List TranscriptionSegment × CurrentSegment
  | LiveEvent.inputTranscription t e => (s.1, onInputTranscription t e s.2)
  | LiveEvent.turnComplete e => onTurnComplete e s.1 s.2

/-- Run a live session from the initial (reset) state over an ordered event
sequence. -/
def runLive (events : List LiveEvent) : List TranscriptionSegment × CurrentSegment :=
  events.foldl liveStep ([], initialCurrentSegment)

/-- Reachability invariant of the live session: a non-empty accumulated
partial text always has a recorded start time. -/
def liveReachInv (c : CurrentSegment) : Prop := c.text ≠ "" → c.startTime ≠ none

/-! ## Whole-list translation (`handleTranslate`, `App.tsx` lines 586-639).

The handler sends the current segments embedded in a prompt and then stores
the parsed structured response verbatim: `setTranslatedSegments(parsed)`.  No
length, order or timestamp validation is performed. -/

/-- The `translatedSegments` state after `handleTranslate` runs with input
`segments` and a structured response `parsedResponse`: unchanged when
`segments` is empty (early return), otherwise the response verbatim. -/
def handleTranslateResult (prevTranslated segments parsedResponse :
    List TranscriptionSegment) : List TranscriptionSegment :=
  if segments.length = 0 then prevTranslated else parsedResponse

/-! ## SRT codec (`parseSrt` / `reconstructSrt`, `App.tsx` lines 734-784) -/

/-- The `SrtSegment` interface of `App.tsx`. -/
structure SrtSegment where
  index : ℕ
  timing : String
  text : String
  deriving DecidableEq, Repr

/-- `replace(/\r\n/g, '\n')`: collapse every CRLF pair to LF. -/
def replaceCRLF : List Char → List Char
  | [] => []
  | '\r' :: '\n' :: rest => '\n' :: replaceCRLF rest
  | c :: rest => c :: replaceCRLF rest

/-- `split(/\n\n+/)`: split on each maximal run of two or more newlines.
`acc` holds the current block reversed, `pending` counts newlines seen but not
yet committed to either the block or a separator. -/
def splitBlocksGo : List Char → List Char → ℕ → List (List Char)
  | [], acc, pending =>
      if pending ≥ 2 then [acc.reverse, []]
      else [(List.replicate pending '\n' ++ acc).reverse]
  | c :: rest, acc, pending =>
      if c = '\n' then splitBlocksGo rest acc (pending + 1)
      else if pending ≥ 2 then acc.reverse :: splitBlocksGo rest [c] 0
      else splitBlocksGo rest (c :: (List.replicate pending '\n' ++ acc)) 0

/-- `split(/\n\n+/)` on a whole string. -/
def splitBlocks (l : List Char) : List (List Char) := splitBlocksGo l [] 0

/-- `split('\n')`: split on every single newline. -/
def splitLines : List Char → List Char → List String
  | [], acc => [String.mk acc.reverse]
  | c :: rest, acc =>
      if c = '\n' then String.mk acc.reverse :: splitLines rest []
      else splitLines rest (c :: acc)

/-- JavaScript `/^\d+$/.test(s)`: `s` is one or more ASCII digits. -/
def isAllDigits (s : String) : Bool := !s.data.isEmpty && s.data.all Char.isDigit

/-- `parseInt(s, 10)` on an all-digit string. -/
def parseIntDigits (s : String) : ℕ :=
  s.data.foldl (fun n c => n * 10 + (c.toNat - '0'.toNat)) 0

/-- JavaScript `String.prototype.includes(pat)` as a character-list scan. -/
def containsSeq (pat : List Char) : List Char → Bool
  | [] => pat.isEmpty
  | c :: rest => pat.isPrefixOf (c :: rest) || containsSeq pat rest

/-- JavaScript `String.prototype.replace('.', ',')`: replace only the FIRST
occurrence of the character. -/
def replaceFirst (a b : Char) : List Char → List Char
  | [] => []
  | c :: rest => if c = a then b :: rest else c :: replaceFirst a b rest

/-- `Array.prototype.join('\n')`. -/
def joinWithNewline : List String → String
  | [] => ""
  | [s] => s
  | s :: rest => s ++ "\n" ++ joinWithNewline rest

/-- The per-block body of the `parseSrt` loop (`App.tsx` lines 739-775), on the
block's lines.  Blocks with fewer than two lines are skipped; a leading
all-digit line is consumed as the index, else the index is synthesized as
`segments.length + 1`; the next line must contain `-->` or the block is
skipped; the timing line is trimmed and its first `.` replaced by `,`; the
remaining lines joined by newline and trimmed form the text, and an
empty-text block is skipped. -/
def parseBlockLines (acc : List SrtSegment) (lines : List String) : List SrtSegment :=
  if lines.length < 2 then acc else
  match lines with
  | [] => acc
  | l0 :: rest =>
    let idxRest : ℕ × List String :=
      if isAllDigits (jsTrim l0) then (parseIntDigits (jsTrim l0), rest)
      else (acc.length + 1, l0 :: rest)
    match idxRest.2 with
    | [] => acc
    | t :: textLines =>
      if containsSeq ("-->".data) t.data then
        let timing := String.mk (replaceFirst '.' ',' (jsTrim t).data)
        let text := jsTrim (joinWithNewline textLines)
        if text = "" then acc else acc ++ [⟨idxRest.1, timing, text⟩]
      else acc

/-- `parseSrt` (`App.tsx` lines 734-777): trim, normalize CRLF, split into
blocks on blank lines, drop blank blocks, then fold the per-block parser. -/
def parseSrt (srtContent : String) : List SrtSegment :=
  let blocks :=
    ((splitBlocks (replaceCRLF (jsTrim srtContent).data)).map String.mk).filter
      (fun b => !(jsTrim b).isEmpty)
  blocks.foldl (fun acc b => parseBlockLines acc (splitLines b.data [])) []

/-- `reconstructSrt` (`App.tsx` lines 779-784): emit
`index\ntiming\n(replacement or original text)\n\n` per record; the fallback
triggers when the replacement is missing or empty (JavaScript `||`). -/
def reconstructSrt (segments : List SrtSegment) (translatedTexts : List String) : String :=
  String.join (segments.mapIdx fun i seg =>
    toString seg.index ++ "\n" ++ seg.timing ++ "\n" ++
      (match translatedTexts.get? i with
       | some t => if t = "" then seg.text else t
       | none => seg.text) ++ "\n\n")

/-! ## Batched SRT translation (`handleSrtTranslate`, `App.tsx` lines 839-908).

The external translation capability is abstracted as a function
`f : List String → List String` giving the structured response for each
requested batch. -/

/-- `SRT_TRANSLATE_CHUNK_SIZE` (`App.tsx` line 25). -/
def SRT_TRANSLATE_CHUNK_SIZE : ℕ := 50

/-- `Math.ceil(allTextsToTranslate.length / SRT_TRANSLATE_CHUNK_SIZE)`
(`App.tsx` line 852), as exact natural ceiling division. -/
def srtNumChunks (texts : List String) : ℕ :=
  (texts.length + SRT_TRANSLATE_CHUNK_SIZE - 1) / SRT_TRANSLATE_CHUNK_SIZE

/-- The batch at index `i`: `allTextsToTranslate.slice(i * 50, i * 50 + 50)`
(`App.tsx` lines 855-857). -/
def srtChunkAt (texts : List String) (i : ℕ) : List String :=
  (texts.drop (i * SRT_TRANSLATE_CHUNK_SIZE)).take SRT_TRANSLATE_CHUNK_SIZE

/-- The consecutive batches of at most `SRT_TRANSLATE_CHUNK_SIZE` items. -/
def srtChunks (texts : List String) : List (List String) :=
  (List.range (srtNumChunks texts)).map (srtChunkAt texts)

/-- The cardinality-mismatch error thrown at `App.tsx` line 884. -/
def mismatchMsg (chunkNumber expected actual : ℕ) : String :=
  "Translation API returned a mismatching number of items for chunk " ++
    toString chunkNumber ++ ". Expected " ++ toString expected ++ ", got " ++
    toString actual ++ "."

/-- The batch loop of `handleSrtTranslate` over the remaining chunk indices:
translate each batch, check the response cardinality, accumulate, and abort
the whole operation on the first mismatch. -/
def srtTranslateGo (f : List String → List String) (texts : List String) :
    List ℕ → List String → Except String (List String)
  | [], acc => Except.ok acc
  | i :: rest, acc =>
      let chunk := srtChunkAt texts i
      let translatedChunk := f chunk
      if translatedChunk.length = chunk.length then
        srtTranslateGo f texts rest (acc ++ translatedChunk)
      else
        Except.error (mismatchMsg (i + 1) chunk.length translatedChunk.length)

/-- The whole batched text translation of `handleSrtTranslate`. -/
def translateAllTexts (f : List String → List String) (texts : List String) :
    Except String (List String) :=
  srtTranslateGo f texts (List.range (srtNumChunks texts)) []

/-- The final cross-check error thrown at `App.tsx` line 893. -/
def finalMismatchMsg : String :=
  "Final translation returned a different number of segments than the input."

/-- The `translatedSrtContent` produced by a `handleSrtTranslate` run (it is
reset to `null` up front and only set on full success; any thrown error lands
in the `catch` block and leaves it `null`, modelled as `none`). -/
def handleSrtTranslateContent (f : List String → List String)
    (srtSegments : List SrtSegment) : Option String :=
  if srtSegments.length = 0 then none
  else
    match translateAllTexts f (srtSegments.map SrtSegment.text) with
    | Except.error _ => none
    | Except.ok allTranslatedTexts =>
        if allTranslatedTexts.length ≠ srtSegments.length then none
        else some (reconstructSrt srtSegments allTranslatedTexts)

/-! ## Helper lemmas -/

lemma int32wrap_eq_self (n : ℤ) (h1 : -2147483648 ≤ n) (h2 : n < 2147483648) :
    int32wrap n = n := by
  unfold int32wrap
  omega

lemma int16wrap_eq_self (n : ℤ) (h1 : -32768 ≤ n) (h2 : n < 32768) :
    int16wrap n = n := by
  unfold int16wrap
  omega

lemma ratTrunc_mem_range (q : ℚ) (lo hi : ℤ) (hlo : (lo : ℚ) ≤ q) (hhi : q ≤ (hi : ℚ))
    (hlo0 : lo ≤ 0) (hhi0 : 0 ≤ hi) : lo ≤ ratTrunc q ∧ ratTrunc q ≤ hi := by
  unfold ratTrunc
  split_ifs with h
  · refine ⟨le_trans hlo0 (Int.floor_nonneg.mpr h), ?_⟩
    calc ⌊q⌋ ≤ ⌊(hi : ℚ)⌋ := Int.floor_le_floor hhi
      _ = hi := Int.floor_intCast hi
  · push_neg at h
    refine ⟨?_, le_trans (Int.ceil_le.mpr (by exact_mod_cast h.le)) hhi0⟩
    calc lo = ⌈(lo : ℚ)⌉ := (Int.ceil_intCast lo).symm
      _ ≤ ⌈q⌉ := Int.ceil_le_ceil hlo

lemma ratTrunc_lt (q : ℚ) (n : ℤ) (hn : 0 < n) (h : q < (n : ℚ)) : ratTrunc q < n := by
  unfold ratTrunc
  split_ifs with h0
  · exact Int.floor_lt.mpr h
  · push_neg at h0
    calc ⌈q⌉ ≤ 0 := Int.ceil_le.mpr (by exact_mod_cast h0.le)
      _ < n := hn

lemma foldl_transcribe_append (chunks : List (List RawSegment × ℚ))
    (init : List TranscriptionSegment) :
    chunks.foldl (fun segs c => transcribeAudioChunk segs c.1 c.2) init =
      init ++ (chunks.map fun c => transcribeChunkSegments c.1 c.2).flatten := by
  induction chunks generalizing init with
  | nil => simp
  | cons c rest ih =>
      rw [List.foldl_cons, ih, List.map_cons, List.flatten_cons, transcribeAudioChunk,
        List.append_assoc]

/-! ## C1 -/

/-- C1: for every chunk transcribed with time offset `t` seconds and every
structured response entry, `transcribeAudioChunk` produces a segment with
`startTime = round((startTime + t) * 1000)` and
`endTime = round((endTime + t) * 1000)`, and appends the chunk's segments to
the running list in chunk order, after all segments of earlier chunks. -/
theorem c1_chunk_offset_shift_and_append :
    (∀ (prev : List TranscriptionSegment) (entries : List RawSegment) (t : ℚ),
      transcribeAudioChunk prev entries t =
        prev ++ entries.map fun s =>
          ⟨jsRound ((s.startTime + t) * 1000), jsRound ((s.endTime + t) * 1000), s.text⟩) ∧
    (∀ chunks : List (List RawSegment × ℚ),
      runChunkSequence chunks = (chunks.map fun c => transcribeChunkSegments c.1 c.2).flatten) := by
  constructor
  · intro prev entries t
    rfl
  · intro chunks
    simpa using foldl_transcribe_append chunks []

/-! ## C2 -/

/-- C2: the claimed `HH:MM:SS,mmm` decomposition fails on the code: at
`ms = 1000` the code renders `00:00:00,000` (the seconds field is
`padStart(3).slice(0,2)`, which drops the units digit of the seconds), while
the decomposition of the claim/spec renders `00:00:01,000`; moreover at
`ms = 86400000` the code wraps hours at 24 (`00:00:00,000` instead of
`24:00:00,000`). -/
theorem c2_formatSrtTime_bug :
    formatSrtTime 1000 = "00:00:00,000" ∧
    specFormatSrtTime 1000 = "00:00:01,000" ∧
    formatSrtTime 1000 ≠ specFormatSrtTime 1000 ∧
    formatSrtTime 86400000 = "00:00:00,000" ∧
    specFormatSrtTime 86400000 = "24:00:00,000" := by
  refine ⟨?_, ?_, ?_, ?_, ?_⟩ <;> decide

/-! ## C3 -/

/-- C3 counterexample: the input sample `-1/4` is already in `[-1, 1]` and is
negative, so the claim predicts the written value `trunc(-1/4 * 32768) =
-8192`; the code compares `(0.5 + sample) < 0`, so `-1/4` takes the `* 32767`
branch and `-8191` is written. -/
theorem c3_counterexample :
    wavSample (-1/4) = -8191 ∧
    ratTrunc ((-1/4 : ℚ) * 32768) = -8192 ∧
    wavSample (-1/4) ≠ ratTrunc ((-1/4 : ℚ) * 32768) := by
  have hmax : max (-1 : ℚ) (min 1 (-1/4)) = -1/4 := by norm_num
  have h1 : wavSample (-1/4) = -8191 := by
    simp only [wavSample, hmax]
    rw [if_neg (by norm_num)]
    have ht : ratTrunc ((-1/4 : ℚ) * 32767) = -8191 := by
      rw [ratTrunc, if_neg (by norm_num)]
      norm_num [Int.ceil_eq_iff]
    rw [ht]
    decide
  have h2 : ratTrunc ((-1/4 : ℚ) * 32768) = -8192 := by
    rw [ratTrunc, if_neg (by norm_num)]
    norm_num [Int.ceil_eq_iff]
  exact ⟨h1, h2, by rw [h1, h2]; decide⟩

/-- C3 (amended): the WAV encoder clamps each sample to `[-1, 1]` and then
multiplies by 32768 when the clamped value is below `-1/2` and by 32767
otherwise (so clamped values in `[-1/2, 0)` are also scaled by 32767),
truncating toward zero; the result always lies in the signed 16-bit range. -/
theorem c3_wav_sample_amended (x : ℚ) :
    wavSample x =
      ratTrunc (if max (-1) (min 1 x) < -(1/2) then max (-1) (min 1 x) * 32768
                else max (-1) (min 1 x) * 32767) ∧
    -32768 ≤ wavSample x ∧ wavSample x ≤ 32767 := by
  have hc1 : (-1 : ℚ) ≤ max (-1) (min 1 x) := le_max_left _ _
  have hc2 : max (-1 : ℚ) (min 1 x) ≤ 1 := max_le (by norm_num) (min_le_left _ _)
  set c := max (-1 : ℚ) (min 1 x) with hcdef
  have hiff : (1/2 + c < 0) ↔ (c < -(1/2)) := by constructor <;> intro h <;> linarith
  have hv : (-32768 : ℚ) ≤ (if 1/2 + c < 0 then c * 32768 else c * 32767) ∧
      (if 1/2 + c < 0 then c * 32768 else c * 32767) ≤ 32767 := by
    split_ifs with h
    · constructor <;> nlinarith
    · push_neg at h
      constructor <;> nlinarith
  have htr := ratTrunc_mem_range (if 1/2 + c < 0 then c * 32768 else c * 32767)
    (-32768) 32767 (by push_cast; exact hv.1) (by push_cast; exact hv.2)
    (by norm_num) (by norm_num)
  have hw : wavSample x =
      ratTrunc (if 1/2 + c < 0 then c * 32768 else c * 32767) := by
    simp only [wavSample, ← hcdef]
    exact int32wrap_eq_self _ (by omega) (by omega)
  refine ⟨?_, ?_, ?_⟩
  · rw [hw, if_congr hiff rfl rfl]
  · rw [hw]; exact htr.1
  · rw [hw]; exact htr.2

/-! ## C10 -/

/-- C10: the live-capture block conversion multiplies each float sample by
32768 with no clamping and stores it with `Int16Array` wrap-around semantics
(truncate toward zero, then reduce modulo `2^16` into `[-32768, 32768)`);
samples in `[-1, 1)` are stored exactly as the truncation, while the sample
`1.0` wraps to `-32768` rather than saturating to 32767. -/
theorem c10_live_pcm_wraps :
    (∀ inputData : List ℚ, liveConvertBlock inputData =
      inputData.map fun x => ((ratTrunc (x * 32768) + 32768) % 65536) - 32768) ∧
    (∀ x : ℚ, -1 ≤ x → x < 1 → liveConvertSample x = ratTrunc (x * 32768)) ∧
    liveConvertSample 1 = -32768 ∧
    liveConvertSample 1 ≠ 32767 := by
  refine ⟨fun inputData => rfl, ?_, ?_, ?_⟩
  · intro x hx1 hx2
    have hlo : ((-32768 : ℤ) : ℚ) ≤ x * 32768 := by push_cast; nlinarith
    have hhi : x * 32768 < ((32768 : ℤ) : ℚ) := by push_cast; nlinarith
    have hb := ratTrunc_mem_range (x * 32768) (-32768) 32768 hlo hhi.le
      (by norm_num) (by norm_num)
    have hlt := ratTrunc_lt (x * 32768) 32768 (by norm_num) hhi
    exact int16wrap_eq_self _ hb.1 hlt
  · have ht : ratTrunc ((1 : ℚ) * 32768) = 32768 := by
      rw [ratTrunc, if_pos (by norm_num)]
      norm_num
    simp only [liveConvertSample, ht]
    decide
  · have ht : ratTrunc ((1 : ℚ) * 32768) = 32768 := by
      rw [ratTrunc, if_pos (by norm_num)]
      norm_num
    simp only [liveConvertSample, ht]
    decide

/-- C10 witness: the in-range case of `c10_live_pcm_wraps` instantiated at the
sample `1/2`. -/
theorem c10_witness :
    (-1 : ℚ) ≤ 1/2 ∧ (1/2 : ℚ) < 1 ∧
    liveConvertSample (1/2) = ratTrunc ((1/2 : ℚ) * 32768) :=
  ⟨by norm_num, by norm_num, c10_live_pcm_wraps.2.1 (1/2) (by norm_num) (by norm_num)⟩

/-! ## C5 -/

lemma range_min_sum (c T : ℚ) (hc : 0 < c) :
    ∀ n : ℕ, (n : ℚ) * c ≤ T →
      ((List.range n).map fun (i : ℕ) => min c (T - (i : ℚ) * c)).sum = (n : ℚ) * c := by
  intro n
  induction n with
  | zero => simp
  | succ m ih =>
      intro h
      have hcast : ((m + 1 : ℕ) : ℚ) = (m : ℚ) + 1 := by push_cast; ring
      have hm : (m : ℚ) * c ≤ T := by
        rw [hcast] at h
        nlinarith
      rw [List.range_succ, List.map_append, List.sum_append, ih hm]
      have hmin : min c (T - (m : ℚ) * c) = c := by
        apply min_eq_left
        rw [hcast] at h
        linarith
      simp only [List.map_cons, List.map_nil, List.sum_cons, List.sum_nil, hmin, hcast]
      ring

lemma planChunks_130_55 : planChunks 130 55 = [(0, 55), (55, 55), (110, 20)] := by
  have h3 : numChunksFor 130 55 = 3 := by
    unfold numChunksFor
    have h : ⌈(130 : ℚ) / 55⌉ = 3 := by norm_num [Int.ceil_eq_iff]
    rw [h]
    rfl
  rw [planChunks, h3]
  have hr : List.range 3 = [0, 1, 2] := by decide
  rw [hr]
  norm_num

/-- C5 counterexample: for the 130-second / 55-second scenario the code yields
offsets `[0, 55, 110]` and durations `[55, 55, 20]`, not the claimed
`[0, 55, 100]` / `[55, 55, 30]`. -/
theorem c5_counterexample :
    (planChunks 130 55).map Prod.fst = [0, 55, 110] ∧
    (planChunks 130 55).map Prod.snd = [55, 55, 20] ∧
    ¬((planChunks 130 55).map Prod.fst = [0, 55, 100] ∧
      (planChunks 130 55).map Prod.snd = [55, 55, 30]) := by
  rw [planChunks_130_55]
  refine ⟨rfl, rfl, ?_⟩
  intro h
  have h1 : (110 : ℚ) = 100 := by simpa using h.1
  norm_num at h1

/-- C5 (amended): for every `totalDurationSeconds > chunkDurationSeconds > 0`
the chunk plan is the ordered sequence with `offsetSeconds[i] = i * c`,
`durationSeconds[i] = min(c, T - i * c)` and count `ceil(T / c)`; the
durations sum to `T` and consecutive chunks are contiguous.  In particular a
130-second input with 55-second chunks yields 3 chunks with offsets
`[0, 55, 110]` and durations `[55, 55, 20]`. -/
theorem c5_chunk_plan_amended (T c : ℚ) (hc : 0 < c) (hT : c < T) :
    (planChunks T c).length = numChunksFor T c ∧
    planChunks T c = ((List.range (numChunksFor T c)).map fun (i : ℕ) =>
        ((i : ℚ) * c, min c (T - (i : ℚ) * c))) ∧
    ((planChunks T c).map Prod.snd).sum = T ∧
    (∀ i : ℕ, i + 1 < numChunksFor T c →
      ((i + 1 : ℕ) : ℚ) * c = (i : ℚ) * c + min c (T - (i : ℚ) * c)) ∧
    planChunks 130 55 = [(0, 55), (55, 55), (110, 20)] := by
  have hcne : c ≠ 0 := ne_of_gt hc
  have hceil_pos : (1 : ℤ) < ⌈T / c⌉ := by
    rw [Int.lt_ceil]
    push_cast
    rw [lt_div_iff₀ hc]
    linarith
  have htoNat : ((numChunksFor T c : ℕ) : ℤ) = ⌈T / c⌉ := by
    unfold numChunksFor
    exact Int.toNat_of_nonneg (by omega)
  have hn2 : 2 ≤ numChunksFor T c := by omega
  -- T ≤ n * c
  have hTn : T ≤ ((numChunksFor T c : ℕ) : ℚ) * c := by
    have h1 : T / c ≤ (⌈T / c⌉ : ℚ) := Int.le_ceil (T / c)
    have h2 : ((numChunksFor T c : ℕ) : ℚ) = ((⌈T / c⌉ : ℤ) : ℚ) := by
      exact_mod_cast congrArg (fun z : ℤ => (z : ℚ)) htoNat
    rw [h2]
    calc T = T / c * c := by field_simp
      _ ≤ ((⌈T / c⌉ : ℤ) : ℚ) * c := by
          exact mul_le_mul_of_nonneg_right h1 hc.le
  -- (n - 1) * c < T
  have hn1T : (((numChunksFor T c : ℕ) : ℚ) - 1) * c < T := by
    have h1 : ((⌈T / c⌉ : ℤ) : ℚ) < T / c + 1 := Int.ceil_lt_add_one (T / c)
    have h2 : ((numChunksFor T c : ℕ) : ℚ) = ((⌈T / c⌉ : ℤ) : ℚ) := by
      exact_mod_cast congrArg (fun z : ℤ => (z : ℚ)) htoNat
    rw [h2]
    have h3 : ((⌈T / c⌉ : ℤ) : ℚ) - 1 < T / c := by linarith
    calc (((⌈T / c⌉ : ℤ) : ℚ) - 1) * c < T / c * c := by
          exact mul_lt_mul_of_pos_right h3 hc
      _ = T := by field_simp
  refine ⟨by simp [planChunks], rfl, ?_, ?_, planChunks_130_55⟩
  · -- durations sum to T
    obtain ⟨m, hm⟩ : ∃ m, numChunksFor T c = m + 1 := ⟨numChunksFor T c - 1, by omega⟩
    have hmcast : ((m : ℚ)) = ((numChunksFor T c : ℕ) : ℚ) - 1 := by
      rw [hm]; push_cast; ring
    have hmT : (m : ℚ) * c ≤ T := by
      rw [hmcast]
      exact (hn1T).le
    rw [planChunks, hm, List.map_map, List.range_succ, List.map_append, List.sum_append]
    have hfun : (Prod.snd ∘ fun (i : ℕ) => ((i : ℚ) * c, min c (T - (i : ℚ) * c))) =
        fun (i : ℕ) => min c (T - (i : ℚ) * c) := rfl
    rw [hfun, range_min_sum c T hc m hmT]
    have hlast : min c (T - (m : ℚ) * c) = T - (m : ℚ) * c := by
      apply min_eq_right
      have : T ≤ ((m : ℚ) + 1) * c := by
        rw [hmcast]
        have : ((numChunksFor T c : ℕ) : ℚ) - 1 + 1 = ((numChunksFor T c : ℕ) : ℚ) := by ring
        rw [this]
        exact hTn
      linarith
    simp only [List.map_cons, List.map_nil, List.sum_cons, List.sum_nil, hlast]
    ring
  · -- contiguity
    intro i hi
    have hico : ((i + 1 : ℕ) : ℚ) ≤ ((numChunksFor T c : ℕ) : ℚ) - 1 := by
      have : (i + 1 : ℕ) ≤ numChunksFor T c - 1 := by omega
      have hcast : ((i + 1 : ℕ) : ℚ) ≤ ((numChunksFor T c - 1 : ℕ) : ℚ) := by
        exact_mod_cast this
      calc ((i + 1 : ℕ) : ℚ) ≤ ((numChunksFor T c - 1 : ℕ) : ℚ) := hcast
        _ = ((numChunksFor T c : ℕ) : ℚ) - 1 := by
            have : 1 ≤ numChunksFor T c := by omega
            push_cast [this]
            ring
    have hle : ((i + 1 : ℕ) : ℚ) * c ≤ T := by
      calc ((i + 1 : ℕ) : ℚ) * c ≤ (((numChunksFor T c : ℕ) : ℚ) - 1) * c := by
            exact mul_le_mul_of_nonneg_right hico hc.le
        _ ≤ T := hn1T.le
    have hmin : min c (T - (i : ℚ) * c) = c := by
      apply min_eq_left
      have : ((i + 1 : ℕ) : ℚ) = (i : ℚ) + 1 := by push_cast; ring
      rw [this] at hle
      linarith
    rw [hmin]
    push_cast
    ring

/-- C5 witness: `c5_chunk_plan_amended` instantiated at `T = 130`, `c = 55`;
the contiguity clause at `i = 0`. -/
theorem c5_witness :
    (0 : ℚ) < 55 ∧ (55 : ℚ) < 130 ∧
    ((planChunks 130 55).map Prod.snd).sum = 130 ∧
    ((0 + 1 : ℕ) : ℚ) * 55 = ((0 : ℕ) : ℚ) * 55 + min 55 (130 - ((0 : ℕ) : ℚ) * 55) :=
  ⟨by norm_num, by norm_num,
    (c5_chunk_plan_amended 130 55 (by norm_num) (by norm_num)).2.2.1,
    (c5_chunk_plan_amended 130 55 (by norm_num) (by norm_num)).2.2.2.1 0 (by
      have h3 : numChunksFor 130 55 = 3 := by
        unfold numChunksFor
        rw [(by norm_num [Int.ceil_eq_iff] : ⌈(130 : ℚ) / 55⌉ = 3)]
        rfl
      omega)⟩

/-! ## C4 -/

lemma join_slices (size : ℕ) :
    ∀ (n : ℕ) (l : List String), l.length ≤ n * size →
      ((List.range n).map fun (i : ℕ) => (l.drop (i * size)).take size).flatten = l := by
  intro n
  induction n with
  | zero =>
      intro l hl
      have : l = [] := List.length_eq_zero.mp (by omega)
      simp [this]
  | succ m ih =>
      intro l hl
      rw [List.range_succ_eq_map, List.map_cons, List.flatten_cons, List.map_map]
      have hfun : ((fun (i : ℕ) => (l.drop (i * size)).take size) ∘ Nat.succ) =
          fun (i : ℕ) => ((l.drop size).drop (i * size)).take size := by
        funext i
        simp only [Function.comp_apply]
        rw [List.drop_drop, Nat.succ_mul, Nat.add_comm (i * size) size]
      rw [hfun]
      have hlen : (l.drop size).length ≤ m * size := by
        rw [List.length_drop]
        have hmul : (m + 1) * size = m * size + size := by ring
        omega
      rw [ih (l.drop size) hlen]
      simp

lemma srtChunks_flatten (texts : List String) : (srtChunks texts).flatten = texts := by
  unfold srtChunks srtChunkAt
  apply join_slices
  unfold srtNumChunks SRT_TRANSLATE_CHUNK_SIZE
  omega

lemma srtTranslateGo_ok (f : List String → List String) (texts : List String) :
    ∀ (js : List ℕ) (acc : List String),
      (∀ i ∈ js, (f (srtChunkAt texts i)).length = (srtChunkAt texts i).length) →
      srtTranslateGo f texts js acc =
        Except.ok (acc ++ (js.map fun i => f (srtChunkAt texts i)).flatten) := by
  intro js
  induction js with
  | nil => intro acc _; simp [srtTranslateGo]
  | cons j rest ih =>
      intro acc h
      rw [srtTranslateGo]
      rw [if_pos (h j (List.mem_cons_self j rest))]
      rw [ih _ (fun i hi => h i (List.mem_cons_of_mem j hi))]
      simp [List.append_assoc]

lemma srtTranslateGo_err (f : List String → List String) (texts : List String) :
    ∀ (js : List ℕ) (acc : List String),
      (∃ i ∈ js, (f (srtChunkAt texts i)).length ≠ (srtChunkAt texts i).length) →
      ∃ k e a, e ≠ a ∧ srtTranslateGo f texts js acc = Except.error (mismatchMsg k e a) := by
  intro js
  induction js with
  | nil => intro acc h; simp at h
  | cons j rest ih =>
      intro acc h
      by_cases hj : (f (srtChunkAt texts j)).length = (srtChunkAt texts j).length
      · obtain ⟨i, hi, hne⟩ := h
        rcases List.mem_cons.mp hi with rfl | hmem
        · exact absurd hj hne
        · obtain ⟨k, e, a, hea, hgo⟩ := ih (acc ++ f (srtChunkAt texts j)) ⟨i, hmem, hne⟩
          refine ⟨k, e, a, hea, ?_⟩
          rw [srtTranslateGo, if_pos hj]
          exact hgo
      · refine ⟨j + 1, (srtChunkAt texts j).length, (f (srtChunkAt texts j)).length,
          fun he => hj he.symm, ?_⟩
        rw [srtTranslateGo, if_neg hj]

/-- C4: the batched SRT translation partitions the input text list into
consecutive batches of at most 50 items (losing and reordering nothing);
whenever every batch's response matches its cardinality, the operation
succeeds and the output has exactly the input's length, the concatenation of
the per-batch translations in input order; whenever some batch's response has
a different cardinality, the whole operation fails with an error naming the
expected and actual counts and `translatedSrtContent` stays unset. -/
theorem c4_srt_translation_batching (f : List String → List String)
    (segs : List SrtSegment) :
    (srtChunks (segs.map SrtSegment.text)).flatten = segs.map SrtSegment.text ∧
    (∀ b ∈ srtChunks (segs.map SrtSegment.text), b.length ≤ SRT_TRANSLATE_CHUNK_SIZE) ∧
    ((∀ b ∈ srtChunks (segs.map SrtSegment.text), (f b).length = b.length) →
      translateAllTexts f (segs.map SrtSegment.text) =
        Except.ok ((srtChunks (segs.map SrtSegment.text)).map f).flatten ∧
      (((srtChunks (segs.map SrtSegment.text)).map f).flatten).length =
        (segs.map SrtSegment.text).length) ∧
    ((∃ b ∈ srtChunks (segs.map SrtSegment.text), (f b).length ≠ b.length) →
      ∃ k e a, e ≠ a ∧
        translateAllTexts f (segs.map SrtSegment.text) =
          Except.error (mismatchMsg k e a) ∧
        handleSrtTranslateContent f segs = none) := by
  set texts := segs.map SrtSegment.text with htexts
  refine ⟨srtChunks_flatten texts, ?_, ?_, ?_⟩
  · intro b hb
    obtain ⟨i, _, rfl⟩ := List.mem_map.mp hb
    exact List.length_take_le _ _
  · intro h
    have hall : ∀ i ∈ List.range (srtNumChunks texts),
        (f (srtChunkAt texts i)).length = (srtChunkAt texts i).length := by
      intro i hi
      exact h _ (List.mem_map.mpr ⟨i, hi, rfl⟩)
    constructor
    · rw [translateAllTexts, srtTranslateGo_ok f texts _ [] hall]
      simp [srtChunks, List.map_map]
      rfl
    · have hmapeq : ((srtChunks texts).map f).map List.length =
          (srtChunks texts).map List.length := by
        rw [List.map_map]
        exact List.map_congr_left fun b hb => h b hb
      calc (((srtChunks texts).map f).flatten).length
          = (((srtChunks texts).map f).map List.length).sum := by
            rw [List.length_flatten]
        _ = ((srtChunks texts).map List.length).sum := by rw [hmapeq]
        _ = ((srtChunks texts).flatten).length := by rw [List.length_flatten]
        _ = texts.length := by rw [srtChunks_flatten texts]
  · intro h
    have hex : ∃ i ∈ List.range (srtNumChunks texts),
        (f (srtChunkAt texts i)).length ≠ (srtChunkAt texts i).length := by
      obtain ⟨b, hb, hne⟩ := h
      obtain ⟨i, hi, rfl⟩ := List.mem_map.mp hb
      exact ⟨i, hi, hne⟩
    obtain ⟨k, e, a, hea, hgo⟩ := srtTranslateGo_err f texts _ [] hex
    refine ⟨k, e, a, hea, hgo, ?_⟩
    have hne : segs.length ≠ 0 := by
      intro h0
      have : segs = [] := List.length_eq_zero.mp h0
      subst this
      simp [srtChunks, srtChunkAt, srtNumChunks, SRT_TRANSLATE_CHUNK_SIZE, htexts] at hex
    rw [handleSrtTranslateContent, if_neg hne, ← htexts, translateAllTexts] at *
    rw [hgo]

/-- C4 witness: `c4_srt_translation_batching` instantiated with the identity
translation oracle (all cardinalities match) and with an oracle dropping one
element (a mismatch), on a two-record input. -/
theorem c4_witness :
    (translateAllTexts (fun l => l)
        (([⟨1, "t1", "a"⟩, ⟨2, "t2", "b"⟩] : List SrtSegment).map SrtSegment.text) =
      Except.ok ((srtChunks (([⟨1, "t1", "a"⟩, ⟨2, "t2", "b"⟩] : List SrtSegment).map
        SrtSegment.text)).map (fun l => l)).flatten) ∧
    (∃ k e a, e ≠ a ∧
      translateAllTexts (fun l => l.drop 1)
          (([⟨1, "t1", "a"⟩, ⟨2, "t2", "b"⟩] : List SrtSegment).map SrtSegment.text) =
        Except.error (mismatchMsg k e a) ∧
      handleSrtTranslateContent (fun l => l.drop 1)
          ([⟨1, "t1", "a"⟩, ⟨2, "t2", "b"⟩] : List SrtSegment) = none) :=
  ⟨((c4_srt_translation_batching (fun l => l) _).2.2.1 (by decide)).1,
    (c4_srt_translation_batching (fun l => l.drop 1) _).2.2.2 (by decide)⟩

/-! ## C6 -/

lemma liveStep_inv (s : List TranscriptionSegment × CurrentSegment) (e : LiveEvent)
    (h : liveReachInv s.2) : liveReachInv (liveStep s e).2 := by
  cases e with
  | inputTranscription t el =>
      simp only [liveStep, onInputTranscription]
      by_cases hpt : s.2.text = ""
      · simp [liveReachInv, hpt]
      · simp only [liveReachInv, hpt, if_neg hpt]
        intro _
        exact h hpt
  | turnComplete el =>
      simp only [liveStep, onTurnComplete]
      split_ifs with htrim
      · cases hst : s.2.startTime with
        | none => simpa [hst, liveReachInv] using h
        | some st =>
            simp only [hst, liveReachInv, initialCurrentSegment]
            intro habs
            exact absurd rfl habs
      · exact h

lemma runLive_inv (events : List LiveEvent) : liveReachInv (runLive events).2 := by
  have hgen : ∀ (evs : List LiveEvent) (s : List TranscriptionSegment × CurrentSegment),
      liveReachInv s.2 → liveReachInv (evs.foldl liveStep s).2 := by
    intro evs
    induction evs with
    | nil => intro s hs; exact hs
    | cons e rest ih =>
        intro s hs
        exact ih (liveStep s e) (liveStep_inv s e hs)
  exact hgen events ([], initialCurrentSegment) (by intro h; exact absurd rfl h)

/-- C6: in live streaming mode, a partial-text event on an empty accumulated
text starts a new partial segment stamped with the current elapsed time, and
otherwise appends text leaving the start time unchanged; a turn-complete event
with non-empty trimmed accumulated text finalizes exactly one segment (start
time of the partial, end time the elapsed time of the event, trimmed text),
appends it and resets the partial; session stop applies the identical
finalization; and the partial events `"Hel"`, `"lo"` followed by turn-complete
at `t = 1200` yield the single segment `(t₁, 1200, "Hello")`. -/
theorem c6_live_streaming :
    (∀ (t : String) (e : ℤ) (c : CurrentSegment), c.text = "" →
      onInputTranscription t e c = ⟨t, some e⟩) ∧
    (∀ (t : String) (e : ℤ) (c : CurrentSegment), c.text ≠ "" →
      onInputTranscription t e c = ⟨c.text ++ t, c.startTime⟩) ∧
    (∀ (events : List LiveEvent) (e : ℤ),
      jsTrim (runLive events).2.text ≠ "" →
      ∃ st, (runLive events).2.startTime = some st ∧
        onTurnComplete e (runLive events).1 (runLive events).2 =
          ((runLive events).1 ++ [⟨st, e, jsTrim (runLive events).2.text⟩],
            initialCurrentSegment)) ∧
    (∀ (e : ℤ) (segs : List TranscriptionSegment) (c : CurrentSegment),
      handleStopFinalize e segs c = onTurnComplete e segs c) ∧
    (∀ t1 t2 : ℤ,
      runLive [LiveEvent.inputTranscription "Hel" t1,
        LiveEvent.inputTranscription "lo" t2, LiveEvent.turnComplete 1200] =
        ([⟨t1, 1200, "Hello"⟩], initialCurrentSegment)) := by
  refine ⟨?_, ?_, ?_, ?_, ?_⟩
  · intro t e c hc
    simp [onInputTranscription, hc]
  · intro t e c hc
    simp [onInputTranscription, hc]
  · intro events e htrim
    have htext : (runLive events).2.text ≠ "" := by
      intro h0
      apply htrim
      rw [h0]
      rfl
    have hst := runLive_inv events htext
    obtain ⟨st, hsome⟩ := Option.ne_none_iff_exists'.mp hst
    refine ⟨st, hsome, ?_⟩
    rw [onTurnComplete, if_pos htrim, hsome]
  · intro e segs c
    rfl
  · intro t1 t2
    rfl

/-- C6 witness: the finalization clause of `c6_live_streaming` instantiated on
the event list `[inputTranscription "Hi" 5]` with a turn-complete at `t = 10`. -/
theorem c6_witness :
    jsTrim (runLive [LiveEvent.inputTranscription "Hi" 5]).2.text ≠ "" ∧
    ∃ st, (runLive [LiveEvent.inputTranscription "Hi" 5]).2.startTime = some st ∧
      onTurnComplete 10 (runLive [LiveEvent.inputTranscription "Hi" 5]).1
          (runLive [LiveEvent.inputTranscription "Hi" 5]).2 =
        ((runLive [LiveEvent.inputTranscription "Hi" 5]).1 ++
          [⟨st, 10, jsTrim (runLive [LiveEvent.inputTranscription "Hi" 5]).2.text⟩],
          initialCurrentSegment) :=
  ⟨by decide, c6_live_streaming.2.2.1 [LiveEvent.inputTranscription "Hi" 5] 10 (by decide)⟩

/-! ## C7 -/

lemma replaceFirst_of_not_mem (a b : Char) :
    ∀ l : List Char, a ∉ l → replaceFirst a b l = l := by
  intro l
  induction l with
  | nil => intro _; rfl
  | cons c rest ih =>
      intro h
      rw [replaceFirst]
      rw [if_neg (fun hc => h (by rw [← hc]; exact List.mem_cons_self c rest))]
      rw [ih (fun hm => h (List.mem_cons_of_mem c hm))]

lemma replaceFirst_first_occurrence (a b : Char) :
    ∀ (l1 l2 : List Char), a ∉ l1 →
      replaceFirst a b (l1 ++ a :: l2) = l1 ++ b :: l2 := by
  intro l1
  induction l1 with
  | nil =>
      intro l2 _
      simp [replaceFirst]
  | cons c rest ih =>
      intro l2 h
      rw [List.cons_append, replaceFirst]
      rw [if_neg (fun hc => h (by rw [← hc]; exact List.mem_cons_self c rest))]
      rw [ih l2 (fun hm => h (List.mem_cons_of_mem c hm)), List.cons_append]

/-- C7 counterexample: a block whose timing line uses `.` in both timestamps
is parsed with only the FIRST `.` normalized to `,` — the second timestamp
keeps its `.`, so the claim that every `.` millisecond separator is
normalized fails. -/
theorem c7_counterexample :
    (parseSrt "1\n00:00:01.000 --> 00:00:02.000\nHi").map SrtSegment.timing =
      ["00:00:01,000 --> 00:00:02.000"] ∧
    ("00:00:01,000 --> 00:00:02.000" : String) ≠ "00:00:01,000 --> 00:00:02,000" := by
  constructor
  · rfl
  · decide

/-- C7 (amended): `parseSrt` keeps a well-formed block's timing line verbatim
after trimming except that exactly the FIRST `.` occurrence (not every one)
is replaced by `,`: the record's timing is `replaceFirst '.' ',' (trim line)`,
where `replaceFirst` leaves a dot-free prefix unchanged and rewrites only the
first dot. -/
theorem c7_timing_normalization_amended :
    (∀ (acc : List SrtSegment) (l0 t : String) (textLines : List String),
      isAllDigits (jsTrim l0) = true →
      containsSeq ("-->".data) t.data = true →
      jsTrim (joinWithNewline textLines) ≠ "" →
      parseBlockLines acc (l0 :: t :: textLines) =
        acc ++ [⟨parseIntDigits (jsTrim l0),
                String.mk (replaceFirst '.' ',' (jsTrim t).data),
                jsTrim (joinWithNewline textLines)⟩]) ∧
    (∀ l : List Char, '.' ∉ l → replaceFirst '.' ',' l = l) ∧
    (∀ (l1 l2 : List Char), '.' ∉ l1 →
      replaceFirst '.' ',' (l1 ++ '.' :: l2) = l1 ++ ',' :: l2) := by
  refine ⟨?_, replaceFirst_of_not_mem '.' ',', replaceFirst_first_occurrence '.' ','⟩
  intro acc l0 t textLines h1 h2 h3
  rw [parseBlockLines]
  rw [if_neg (by simp)]
  simp only [h1, if_true, h2]
  rw [if_neg h3]

/-- C7 witness: `c7_timing_normalization_amended` instantiated on a concrete
block with a digit index line, a timing line containing two dots, and the
text `"Hi"`, plus `replaceFirst` on concrete dot-free and first-dot lists. -/
theorem c7_witness :
    parseBlockLines [] ["2", "00:00:01.000 --> 00:00:02.500", "Hi"] =
      [⟨2, "00:00:01,000 --> 00:00:02.500", "Hi"⟩] ∧
    replaceFirst '.' ',' ['a', 'b'] = ['a', 'b'] ∧
    replaceFirst '.' ',' (['a'] ++ '.' :: ['b', '.', 'c']) = ['a'] ++ ',' :: ['b', '.', 'c'] := by
  refine ⟨?_, c7_timing_normalization_amended.2.1 ['a', 'b'] (by decide),
    c7_timing_normalization_amended.2.2 ['a'] ['b', '.', 'c'] (by decide)⟩
  rw [c7_timing_normalization_amended.1 [] "2" "00:00:01.000 --> 00:00:02.500" ["Hi"]
    (by decide) (by decide) (by decide)]
  rfl

/-! ## C8 -/

/-- C8 counterexample: `handleTranslate` stores the structured response
verbatim, so a (schema-conformant) response with fewer elements than the
input yields a translated list whose length differs from the input's —
refuting the claim that the output always has the input's length, order and
timestamps. -/
theorem c8_counterexample :
    handleTranslateResult [] [⟨0, 1000, "a"⟩] [] = [] ∧
    (handleTranslateResult [] [⟨0, 1000, "a"⟩] []).length ≠
      ([⟨0, 1000, "a"⟩] : List TranscriptionSegment).length := by
  constructor
  · rfl
  · decide

/-- C8 (amended): for a non-empty input segment list, `handleTranslate` makes
the translated segment list exactly the structured response, verbatim; length,
order and timestamp preservation therefore hold exactly when the response
itself provides them (the prompt requests this, the code does not enforce
it). -/
theorem c8_translate_stores_response (prev segs resp : List TranscriptionSegment)
    (h : segs.length ≠ 0) :
    handleTranslateResult prev segs resp = resp ∧
    (resp.length = segs.length → (handleTranslateResult prev segs resp).length = segs.length) ∧
    (∀ i : ℕ, (handleTranslateResult prev segs resp).get? i = resp.get? i) := by
  have hres : handleTranslateResult prev segs resp = resp := by
    rw [handleTranslateResult, if_neg h]
  exact ⟨hres, fun hlen => by rw [hres, hlen], fun i => by rw [hres]⟩

/-- C8 witness: `c8_translate_stores_response` instantiated on a one-segment
input and a matching one-segment response. -/
theorem c8_witness :
    ([⟨0, 1000, "a"⟩] : List TranscriptionSegment).length ≠ 0 ∧
    handleTranslateResult [] [⟨0, 1000, "a"⟩] [⟨0, 1000, "x"⟩] = [⟨0, 1000, "x"⟩] :=
  ⟨by decide,
    (c8_translate_stores_response [] [⟨0, 1000, "a"⟩] [⟨0, 1000, "x"⟩] (by decide)).1⟩

/-! ## C9 -/

lemma processFileGo_error (msg : String) (rest : List (Except String (List RawSegment))) :
    ∀ (oks : List (List RawSegment)) (i : ℕ) (segs : List TranscriptionSegment),
      processFileGo (oks.map Except.ok ++ Except.error msg :: rest) i segs =
        ⟨AppStatus.ERROR, segs ++ chunkSegmentsFrom i oks, some (fileErrMsg msg)⟩ := by
  intro oks
  induction oks with
  | nil =>
      intro i segs
      simp [processFileGo, chunkSegmentsFrom]
  | cons es oks ih =>
      intro i segs
      simp only [List.map_cons, List.cons_append, processFileGo, transcribeAudioChunk,
        List.append_eq, chunkSegmentsFrom, ih, List.append_assoc]

lemma processFileGo_ok :
    ∀ (oks : List (List RawSegment)) (i : ℕ) (segs : List TranscriptionSegment),
      processFileGo (oks.map Except.ok) i segs =
        ⟨AppStatus.FINISHED, segs ++ chunkSegmentsFrom i oks, none⟩ := by
  intro oks
  induction oks with
  | nil =>
      intro i segs
      simp [processFileGo, chunkSegmentsFrom]
  | cons es oks ih =>
      intro i segs
      simp only [List.map_cons, processFileGo, transcribeAudioChunk,
        List.append_eq, chunkSegmentsFrom, ih, List.append_assoc]

/-- C9 counterexample: a two-chunk run whose first chunk succeeds (one
segment) and whose second chunk fails terminates in `AppStatus.ERROR`, but
the segment list still holds the first chunk's segment — it is NOT empty, so
the accumulated partial results are not discarded with the failed
operation. -/
theorem c9_counterexample :
    (processFileModel [Except.ok [⟨0, 1, "hi"⟩], Except.error "boom"]).status =
      AppStatus.ERROR ∧
    (processFileModel [Except.ok [⟨0, 1, "hi"⟩], Except.error "boom"]).segments =
      [⟨0, 1000, "hi"⟩] ∧
    ([⟨0, 1000, "hi"⟩] : List TranscriptionSegment) ≠ [] := by
  have h0 : jsRound ((0 + ((0 : ℕ) : ℚ) * CHUNK_DURATION_SECONDS) * 1000) = 0 := by
    norm_num [jsRound, CHUNK_DURATION_SECONDS, Int.floor_eq_iff]
  have h1 : jsRound ((1 + ((0 : ℕ) : ℚ) * CHUNK_DURATION_SECONDS) * 1000) = 1000 := by
    norm_num [jsRound, CHUNK_DURATION_SECONDS, Int.floor_eq_iff]
  refine ⟨?_, ?_, by decide⟩
  · rfl
  · show (processFileGo [Except.ok [⟨0, 1, "hi"⟩], Except.error "boom"] 0 []).segments =
      [⟨0, 1000, "hi"⟩]
    simp only [processFileGo, transcribeAudioChunk, transcribeChunkSegments,
      List.map_cons, List.map_nil, List.nil_append, h0, h1]

/-- C9 (amended): when a later chunk's transcription request fails after
earlier chunks succeeded, the operation terminates in an error state
(`AppStatus.ERROR` with the failure message), but the partial results
accumulated from the earlier chunks are retained in the segment list rather
than discarded (they are cleared only by cancellation or by starting a new
operation); an all-success run finishes with the same accumulated list. -/
theorem c9_error_retains_prefix (oks : List (List RawSegment)) (msg : String)
    (rest : List (Except String (List RawSegment))) :
    processFileModel (oks.map Except.ok ++ Except.error msg :: rest) =
      ⟨AppStatus.ERROR, chunkSegmentsFrom 0 oks, some (fileErrMsg msg)⟩ ∧
    processFileModel (oks.map Except.ok) =
      ⟨AppStatus.FINISHED, chunkSegmentsFrom 0 oks, none⟩ := by
  constructor
  · rw [processFileModel, processFileGo_error msg rest oks 0 []]
    rw [List.nil_append]
  · rw [processFileModel, processFileGo_ok oks 0 []]
    rw [List.nil_append]
